import Mathlib

/-!
Verification of the `tests-e2e/erc20_balances.py` script of the
Vitreus-Foundation/power-plant repository, against its specification.

The script is a linear smoke test: it computes a 4-byte Ethereum function
selector with Keccak-256, converts the integer 2050 into an EIP-55
checksummed hex address, connects to a node, registers custom type
overrides, and builds (encodes and prints, but never signs or submits) an
EVM `call` extrinsic descriptor.

The embedding below translates the script and the library functions it
calls on its data path (keccak from eth_utils, eth_abi.encode for the
static fragment used, to_checksum_address, Python hex/zfill) into
executable Lean definitions over lists of bytes (`List Nat`, each < 256)
and characters.  The network-dependent parts (the substrate interface,
its metadata, and the SCALE codec) are opaque external services per the
specification; they are represented by an explicit effect trace and by a
function parameter standing for the SCALE encoder obtained from fixed
metadata.
-/

set_option maxRecDepth 40000

/-- 64-bit left rotation on `Nat`, truncated to 64 bits. -/
def rotl64 (x n : Nat) : Nat :=
  ((x <<< n) ||| (x >>> (64 - n))) &&& 0xFFFFFFFFFFFFFFFF

/-- One step of the degree-8 LFSR (polynomial x^8 + x^6 + x^5 + x^4 + 1)
that generates the Keccak round-constant bits. -/
def lfsrStep (r : Nat) : Nat :=
  let r2 := r <<< 1
  if r2 &&& 0x100 = 0 then r2 &&& 0xFF else (r2 ^^^ 0x71) &&& 0xFF

/-- The LFSR register after t steps, starting from 1; its low bit is the
round-constant bit rc(t). -/
def lfsrIter : Nat → Nat
  | 0 => 1
  | t + 1 => lfsrStep (lfsrIter t)

/-- The 24 Keccak round constants, derived from the LFSR bit sequence:
round i sets bit 2 ^ j - 1 to rc(j + 7 * i) for j = 0 .. 6. -/
def keccakRC : List Nat :=
  (List.range 24).map (fun i =>
    (List.range 7).foldl
      (fun acc j => acc ||| (((lfsrIter (j + 7 * i)) &&& 1) <<< (2 ^ j - 1))) 0)

/-- For each destination lane index of the combined rho+pi step, the source
lane index and the rotation amount (state laid out flat as index x + 5 * y). -/
def piSrcRot : List (Nat × Nat) :=
  [(0, 0), (6, 44), (12, 43), (18, 21), (24, 14),
   (3, 28), (9, 20), (10, 3), (16, 45), (22, 61),
   (1, 1), (7, 6), (13, 25), (19, 8), (20, 18),
   (4, 27), (5, 36), (11, 10), (17, 15), (23, 56),
   (2, 62), (8, 55), (14, 39), (15, 41), (21, 2)]

/-- Keccak theta step on the 25-lane state. -/
def theta (a : List Nat) : List Nat :=
  let c : List Nat := (List.range 5).map (fun x =>
    ((((a.getD x 0) ^^^ (a.getD (x + 5) 0)) ^^^ (a.getD (x + 10) 0)) ^^^
      (a.getD (x + 15) 0)) ^^^ (a.getD (x + 20) 0))
  let d : List Nat := (List.range 5).map (fun x =>
    (c.getD ((x + 4) % 5) 0) ^^^ rotl64 (c.getD ((x + 1) % 5) 0) 1)
  (List.range 25).map (fun i => (a.getD i 0) ^^^ (d.getD (i % 5) 0))

/-- Combined Keccak rho and pi steps. -/
def rhoPi (a : List Nat) : List Nat :=
  piSrcRot.map (fun p => rotl64 (a.getD p.1 0) p.2)

/-- Keccak chi step. -/
def chi (b : List Nat) : List Nat :=
  (List.range 25).map (fun i =>
    let y5 := 5 * (i / 5)
    let x := i % 5
    (b.getD i 0) ^^^
      ((0xFFFFFFFFFFFFFFFF ^^^ (b.getD (y5 + (x + 1) % 5) 0)) &&&
        (b.getD (y5 + (x + 2) % 5) 0)))

/-- Keccak iota step. -/
def iota (rc : Nat) (a : List Nat) : List Nat :=
  a.set 0 ((a.getD 0 0) ^^^ rc)

/-- The Keccak-f[1600] permutation (24 rounds). -/
def keccakF (st : List Nat) : List Nat :=
  keccakRC.foldl (fun s rc => iota rc (chi (rhoPi (theta s)))) st

/-- Multi-rate padding of legacy Keccak (domain byte 0x01), rate 136 bytes.
This is the padding used by eth_utils keccak, not the SHA-3 variant. -/
def keccakPad (len : Nat) : List Nat :=
  let q := 136 - len % 136
  if q = 1 then [0x81] else 0x01 :: (List.replicate (q - 2) 0 ++ [0x80])

/-- Interpret up to 8 bytes as a little-endian 64-bit word. -/
def wordLE (bs : List Nat) : Nat :=
  bs.foldr (fun b acc => acc * 256 + b) 0

/-- XOR a 136-byte block into the first 17 lanes of the state. -/
def xorBlock (st : List Nat) (block : List Nat) : List Nat :=
  (List.range 25).map (fun i =>
    (st.getD i 0) ^^^ (if i < 17 then wordLE ((block.drop (8 * i)).take 8) else 0))

/-- Split a byte list into 136-byte blocks (fuel-based structural recursion;
the fuel is always at least the number of blocks). -/
def splitBlocks : Nat → List Nat → List (List Nat)
  | 0, _ => []
  | _, [] => []
  | fuel + 1, bs => bs.take 136 :: splitBlocks fuel (bs.drop 136)

/-- Keccak-256 (legacy 0x01 padding, as used by the Ethereum ecosystem and by
eth_utils keccak) of a byte list; returns the 32 digest bytes. -/
def keccak256 (msg : List Nat) : List Nat :=
  let padded := msg ++ keccakPad msg.length
  let st := (splitBlocks padded.length padded).foldl
    (fun s block => keccakF (xorBlock s block)) (List.replicate 25 0)
  (List.range 32).map (fun i => ((st.getD (i / 8) 0) >>> (8 * (i % 8))) % 256)

/-- UTF-8 encoding of one character, as Python text encoding produces it. -/
def utf8Bytes (c : Char) : List Nat :=
  let n := c.toNat
  if n < 0x80 then [n]
  else if n < 0x800 then [0xC0 ||| (n >>> 6), 0x80 ||| (n &&& 0x3F)]
  else if n < 0x10000 then
    [0xE0 ||| (n >>> 12), 0x80 ||| ((n >>> 6) &&& 0x3F), 0x80 ||| (n &&& 0x3F)]
  else
    [0xF0 ||| (n >>> 18), 0x80 ||| ((n >>> 12) &&& 0x3F), 0x80 ||| ((n >>> 6) &&& 0x3F),
     0x80 ||| (n &&& 0x3F)]

/-- UTF-8 bytes of a string, matching keccak(text=...) in the source. -/
def strBytes (s : String) : List Nat := s.data.flatMap utf8Bytes

/-- Embeds func_selector of erc20_balances.py: the first 4 bytes of the
Keccak-256 hash of the signature text. -/
def func_selector (text : String) : List Nat := (keccak256 (strBytes text)).take 4

/-- Argument values the ABI encoder of the embedding supports (the static
fragment; the script itself only ever passes an empty argument list). -/
inductive ABIValue where
  | uintV (n : Nat)
  | boolV (b : Bool)
  | addrV (a : Nat)
deriving DecidableEq

/-- One 32-byte big-endian ABI word. -/
def encodeWord (n : Nat) : List Nat :=
  (List.range 32).map (fun i => (n >>> (8 * (31 - i))) % 256)

/-- ABI encoding of a single static value against a type tag; none models an
eth_abi exception (unknown type tag, type/value mismatch, out of range). -/
def encodeValue : String → ABIValue → Option (List Nat)
  | "uint256", ABIValue.uintV n => if n < 2 ^ 256 then some (encodeWord n) else none
  | "bool", ABIValue.boolV b => some (encodeWord (if b then 1 else 0))
  | "address", ABIValue.addrV a => if a < 2 ^ 160 then some (encodeWord a) else none
  | _, _ => none

/-- Models eth_abi encode for the static head-only fragment: the
concatenation of one 32-byte word per argument; none models an exception
(including a length mismatch between type tags and arguments). -/
def abiEncode : List String → List ABIValue → Option (List Nat)
  | [], [] => some []
  | t :: ts, v :: vs => do
      let h ← encodeValue t v
      let r ← abiEncode ts vs
      pure (h ++ r)
  | _, _ => none

/-- Embeds encode_input of erc20_balances.py: the selector of the function
name followed by the ABI encoding of the arguments. -/
def encode_input (name : String) (types : List String) (args : List ABIValue) :
    Option (List Nat) :=
  (abiEncode types args).map (fun e => func_selector name ++ e)

/-- Lowercase hexadecimal digit character for a value below 16, as Python
hex rendering produces. -/
def hexDigitChar (d : Nat) : Char :=
  if d < 10 then Char.ofNat (48 + d) else Char.ofNat (87 + d)

/-- Base-16 digits of a number, least significant first, with explicit fuel
(structural recursion so that concrete evaluation reduces in the kernel). -/
def hexDigitsLE : Nat → Nat → List Nat
  | 0, _ => []
  | fuel + 1, n => if n < 16 then [n] else n % 16 :: hexDigitsLE fuel (n / 16)

/-- Hexadecimal digit characters of a number, most significant first, with
no leading zeros except for the single digit of 0; fuel n + 1 always
suffices since the number shrinks 16-fold per digit. -/
def hexCharsOf (n : Nat) : List Char := ((hexDigitsLE (n + 1) n).map hexDigitChar).reverse

/-- Models Python hex(): a 0x-prefixed lowercase rendering, with a leading
minus sign for negative numbers. -/
def pyHex (n : Int) : List Char :=
  if n < 0 then '-' :: '0' :: 'x' :: hexCharsOf (-n).toNat
  else '0' :: 'x' :: hexCharsOf n.toNat

/-- Models Python str.zfill for the strings reachable here (none of which
start with a sign character): left-pad with '0' to the requested width. -/
def zfill (k : Nat) (s : List Char) : List Char := List.replicate (k - s.length) '0' ++ s

/-- Is the character a lowercase hexadecimal digit (0-9, a-f)? -/
def isHexDigitChar (c : Char) : Bool :=
  (48 ≤ c.toNat && c.toNat ≤ 57) || (97 ≤ c.toNat && c.toNat ≤ 102)

/-- ASCII lowercasing of one character, as Python str.lower acts on the
ASCII strings reachable here. -/
def lowerHexChar (c : Char) : Char :=
  if 65 ≤ c.toNat ∧ c.toNat ≤ 90 then Char.ofNat (c.toNat + 32) else c

/-- ASCII uppercasing of one character, as Python str.upper acts on the
ASCII strings reachable here. -/
def upperHexChar (c : Char) : Char :=
  if 97 ≤ c.toNat ∧ c.toNat ≤ 122 then Char.ofNat (c.toNat - 32) else c

/-- Models eth_utils remove_0x_prefix: strip one leading 0x or 0X. -/
def strip0x (s : List Char) : List Char :=
  if 2 ≤ s.length ∧ s.getD 0 ' ' = '0' ∧ (s.getD 1 ' ' = 'x' ∨ s.getD 1 ' ' = 'X')
  then s.drop 2 else s

/-- Nibble i of a digest, in the order of its hexadecimal rendering: the
high nibble of byte i / 2 for even i, the low nibble for odd i. -/
def nibble (h : List Nat) (i : Nat) : Nat :=
  if i % 2 = 0 then ((h.getD (i / 2) 0) >>> 4) &&& 15 else (h.getD (i / 2) 0) &&& 15

/-- The EIP-55 mixed-case step of eth_utils to_checksum_address: hash the
lowercase 40-digit address text with Keccak-256 and uppercase every digit
whose corresponding hash nibble is at least 8. -/
def checksumFormat (lower : List Char) : List Char :=
  let h := keccak256 (lower.flatMap utf8Bytes)
  (List.range lower.length).map (fun i =>
    if 8 ≤ nibble h i then upperHexChar (lower.getD i ' ') else lower.getD i ' ')

/-- Models eth_utils to_checksum_address: accept a 40-hex-digit string with
an optional 0x prefix (case-insensitively), normalize to lowercase, and
return the 0x-prefixed EIP-55 mixed-case form; none models the ValueError
raised on any other input. -/
def to_checksum_address (s : List Char) : Option (List Char) :=
  let body := strip0x s
  let lower := body.map lowerHexChar
  if body.length = 40 ∧ lower.all isHexDigitChar then
    some ('0' :: 'x' :: checksumFormat lower)
  else none

/-- Embeds num_to_address of erc20_balances.py: drop the first two
characters of the hex rendering, zero-fill to 40 characters, and convert to
a checksummed address; none models a raised exception. -/
def num_to_address (num : Int) : Option (List Char) :=
  let address_hex := (pyHex num).drop 2
  let address_hex_padded := zfill 40 address_hex
  to_checksum_address address_hex_padded

/-- The script constant CONTRACT_ADDRESS = num_to_address(2050); the
conversion succeeds, so defaulting the Option is faithful. -/
def CONTRACT_ADDRESS : String := String.mk ((num_to_address 2050).getD [])

/-- The keypair data the script handles: an externally supplied identity.
crypto_type 2 is the ECDSA tag of the client library. -/
structure Keypair where
  public_key : List Nat
  private_key : List Nat
  crypto_type : Nat
deriving DecidableEq

/-- Lowercase hex rendering of a byte list, as Python bytes.hex(). -/
def bytesToHexChars (bs : List Nat) : List Char :=
  bs.flatMap (fun b => [hexDigitChar (b / 16), hexDigitChar (b % 16)])

/-- The call_args dictionary passed by call_contract. -/
structure CallArgs where
  source : String
  target : String
  input : String
  value : Nat
  gas_limit : Nat
  max_fee_per_gas : Nat
  max_priority_fee_per_gas : Option Nat
  nonce : Option Nat
  access_list : List Nat
deriving DecidableEq

/-- The Call descriptor dictionary passed by call_contract to the SCALE
object's encode. -/
structure CallDescr where
  call_module : String
  call_function : String
  call_args : CallArgs
deriving DecidableEq

/-- The descriptor literal built inside call_contract of erc20_balances.py. -/
def mkEvmCall (keypair : Keypair) (contract_addr : String) (inp : List Nat) : CallDescr :=
  { call_module := "EVM"
    call_function := "call"
    call_args := {
      source := String.mk ('0' :: 'x' :: bytesToHexChars keypair.public_key)
      target := contract_addr
      input := String.mk (bytesToHexChars inp)
      value := 0
      gas_limit := 10000000
      max_fee_per_gas := 10000000
      max_priority_fee_per_gas := none
      nonce := none
      access_list := [] } }

/-- A type registry entry: an alias of another type name or a struct layout. -/
inductive TypeDef where
  | alias (target : String)
  | structDef (fields : List (String × String))
deriving DecidableEq

/-- The custom type overrides registered by init_interface of
erc20_balances.py, in source order. -/
def typeRegistryTypes : List (String × TypeDef) :=
  [("Address", TypeDef.alias "AccountId"),
   ("LookupSource", TypeDef.alias "AccountId"),
   ("Account", TypeDef.structDef [("nonce", "U256"), ("balance", "U256")]),
   ("AccountId", TypeDef.alias "H160"),
   ("Transaction", TypeDef.structDef
     [("nonce", "U256"), ("gas_price", "U256"), ("gas_limit", "U256"),
      ("action", "EthTransactionAction"), ("value", "U256"), ("input", "Bytes"),
      ("signature", "EthTransactionSignature")]),
   ("Signature", TypeDef.structDef [("v", "u64"), ("r", "H256"), ("s", "H256")])]

/-- Look a name up in the registered overrides. -/
def lookupType (name : String) : Option TypeDef :=
  (typeRegistryTypes.find? (fun p => p.1 == name)).map Prod.snd

/-- Follow alias entries of the registered overrides up to the given depth;
names with no alias entry (base types and structs) resolve to themselves. -/
def resolveAlias : Nat → String → String
  | 0, name => name
  | fuel + 1, name =>
    match lookupType name with
    | some (TypeDef.alias t) => resolveAlias fuel t
    | _ => name

/-- The observable operations the script performs against its external
services, in order. -/
inductive Effect where
  | connect (url : String)
  | initRuntime
  | updateTypeRegistry (types : List (String × TypeDef))
  | getMetadata
  | createScaleObject (ty : String)
  | scaleEncode (desc : CallDescr)
  | printOutput (bytes : List Nat)
  | createSignedExtrinsic
  | submitExtrinsic
deriving DecidableEq

/-- Does the effect modify the interface's type registry? -/
def Effect.isRegUpdate : Effect → Bool
  | Effect.updateTypeRegistry _ => true
  | _ => false

/-- The effect trace of init_interface of erc20_balances.py: connect to the
fixed local endpoint, initialize the runtime, register the overrides. -/
def init_interface_effects : List Effect :=
  [Effect.connect "ws://127.0.0.1:9944", Effect.initRuntime,
   Effect.updateTypeRegistry typeRegistryTypes]

/-- Embeds call_contract of erc20_balances.py.  The enc parameter stands
for the opaque SCALE encoding obtained from the interface's fixed metadata
(an external service per the specification); the result is the encoded
bytes together with the effect trace of the active code path: fetch
metadata, create the Call scale object, encode the descriptor, print. -/
def call_contract (enc : CallDescr → List Nat) (keypair : Keypair)
    (contract_addr : String) (inp : List Nat) : List Nat × List Effect :=
  let desc := mkEvmCall keypair contract_addr inp
  let cc := enc desc
  (cc, [Effect.getMetadata, Effect.createScaleObject "Call", Effect.scaleEncode desc,
        Effect.printOutput cc])

/-- State-passing form of call_contract: the keypair is part of the state
threaded through the call; the function body of the source contains no
assignment to it, so it comes back unchanged. -/
def call_contract_st (enc : CallDescr → List Nat) (keypair : Keypair)
    (contract_addr : String) (inp : List Nat) : Keypair × (List Nat × List Effect) :=
  (keypair, call_contract enc keypair contract_addr inp)

/-- The script-level input bytes: encode_input("name()", [], []); the
encoding succeeds, so defaulting the Option is faithful. -/
def script_input : List Nat := (encode_input "name()" [] []).getD []

/-- The effect trace of the whole script body for a given SCALE encoder and
the externally constructed keypair: initialize the interface, then build,
encode and print the call. -/
def script_effects (enc : CallDescr → List Nat) (keypair : Keypair) : List Effect :=
  init_interface_effects ++ (call_contract enc keypair CONTRACT_ADDRESS script_input).2

/-- The bytes the script prints for a given SCALE encoder and keypair. -/
def script_output (enc : CallDescr → List Nat) (keypair : Keypair) : List Nat :=
  (call_contract enc keypair CONTRACT_ADDRESS script_input).1

/-- A concrete SCALE encoder stand-in used by witnesses. -/
def sampleEnc : CallDescr → List Nat := fun _ => [1, 2, 3]

/-- A concrete keypair used by witnesses. -/
def sampleKeypair : Keypair :=
  { public_key := [1], private_key := [2], crypto_type := 2 }

/-- A second concrete keypair with the same public key and a different
private key, used by witnesses. -/
def sampleKeypair2 : Keypair :=
  { public_key := [1], private_key := [3], crypto_type := 2 }

set_option maxHeartbeats 2000000

/-- Known-answer test: the Keccak-256 digest of the empty message. -/
theorem keccak256_empty_kat :
    keccak256 [] =
      [0xc5, 0xd2, 0x46, 0x01, 0x86, 0xf7, 0x23, 0x3c, 0x92, 0x7e, 0x7d, 0xb2,
       0xdc, 0xc7, 0x03, 0xc0, 0xe5, 0x00, 0xb6, 0x53, 0xca, 0x82, 0x27, 0x3b,
       0x7b, 0xfa, 0xd8, 0x04, 0x5d, 0x85, 0xa4, 0x70] := by decide

/-- Known-answer test: the ERC-20 name() selector. -/
theorem func_selector_name_kat : func_selector "name()" = [0x06, 0xfd, 0xde, 0x03] := by
  decide

/-- Known-answer test: an EIP-55 checksum example with letters in both cases. -/
theorem to_checksum_address_kat :
    to_checksum_address ("fb6916095ca1df60bb79ce92ce3ea74c37c5d359".data) =
      some ("0xfB6916095ca1df60bB79Ce92cE3Ea74c37c5d359".data) := by decide

/-- Every Keccak-256 digest has 32 bytes. -/
theorem keccak256_length (msg : List Nat) : (keccak256 msg).length = 32 := by
  simp [keccak256]

/-- Every selector has exactly 4 bytes. -/
theorem func_selector_length (s : String) : (func_selector s).length = 4 := by
  simp [func_selector, keccak256_length]

/-- Every base-16 digit produced is below 16. -/
theorem hexDigitsLE_mem_lt : ∀ (f n x : Nat), x ∈ hexDigitsLE f n → x < 16 := by
  intro f
  induction f with
  | zero => intro n x hx; simp [hexDigitsLE] at hx
  | succ f ih =>
    intro n x hx
    unfold hexDigitsLE at hx
    by_cases h : n < 16
    · simp [h] at hx; omega
    · simp [h] at hx
      rcases hx with hx | hx
      · omega
      · exact ih _ _ hx

/-- A number below 16 ^ k has at most k base-16 digits (any fuel). -/
theorem hexDigitsLE_length_le :
    ∀ (f k n : Nat), n < 16 ^ k → 1 ≤ k → (hexDigitsLE f n).length ≤ k := by
  intro f
  induction f with
  | zero => intro k n _ _; simp [hexDigitsLE]
  | succ f ih =>
    intro k n hn hk
    unfold hexDigitsLE
    by_cases h : n < 16
    · simp [h]; omega
    · simp [h]
      obtain ⟨k₁, rfl⟩ : ∃ k₁, k = k₁ + 1 := ⟨k - 1, by omega⟩
      by_cases hk₁ : 1 ≤ k₁
      · have hpow : (16 : Nat) ^ (k₁ + 1) = 16 ^ k₁ * 16 := pow_succ 16 k₁
        have hdiv : n / 16 < 16 ^ k₁ := Nat.div_lt_of_lt_mul (by omega)
        have := ih k₁ (n / 16) hdiv hk₁
        omega
      · exfalso
        have hk0 : k₁ = 0 := by omega
        subst hk0
        simp [pow_one] at hn
        omega

/-- A number of at least 16 ^ k has more than k base-16 digits, given
enough fuel. -/
theorem hexDigitsLE_length_ge :
    ∀ (f n k : Nat), n < f → 16 ^ k ≤ n → k + 1 ≤ (hexDigitsLE f n).length := by
  intro f
  induction f with
  | zero => intro n k h _; omega
  | succ f ih =>
    intro n k hnf hkn
    unfold hexDigitsLE
    by_cases h : n < 16
    · simp [h]
      by_contra hc
      have hk : 1 ≤ k := by omega
      have h16 : (16 : Nat) ≤ 16 ^ k := by
        calc (16 : Nat) = 16 ^ 1 := (pow_one 16).symm
        _ ≤ 16 ^ k := Nat.pow_le_pow_right (by omega) hk
      omega
    · simp [h]
      rcases k with _ | k₁
      · omega
      · have hpow : (16 : Nat) ^ (k₁ + 1) = 16 ^ k₁ * 16 := pow_succ 16 k₁
        have hdiv : 16 ^ k₁ ≤ n / 16 := by
          rw [Nat.le_div_iff_mul_le (show 0 < 16 by omega)]
          omega
        have hnf' : n / 16 < f := by
          have := Nat.div_lt_self (show 0 < n by omega) (show 1 < 16 by omega)
          omega
        have := ih (n / 16) k₁ hnf' hdiv
        omega

/-- The digit list is never empty when the fuel is positive. -/
theorem hexDigitsLE_length_pos (f n : Nat) : 1 ≤ (hexDigitsLE (f + 1) n).length := by
  unfold hexDigitsLE
  by_cases h : n < 16 <;> simp [h]

/-- The character rendering has as many characters as there are digits. -/
theorem hexCharsOf_length (n : Nat) :
    (hexCharsOf n).length = (hexDigitsLE (n + 1) n).length := by
  simp [hexCharsOf]

/-- Digit characters of values below 16 are lowercase hex digits. -/
theorem isHexDigitChar_hexDigitChar (d : Nat) (hd : d < 16) :
    isHexDigitChar (hexDigitChar d) = true := by
  interval_cases d <;> decide

/-- Every character of a hex rendering is a lowercase hex digit. -/
theorem hexCharsOf_mem (c : Char) (n : Nat) (hc : c ∈ hexCharsOf n) :
    isHexDigitChar c = true := by
  simp [hexCharsOf] at hc
  obtain ⟨d, hd, rfl⟩ := hc
  exact isHexDigitChar_hexDigitChar d (hexDigitsLE_mem_lt _ _ _ hd)

/-- Lowercasing fixes lowercase hex digits. -/
theorem lowerHexChar_of_hex (c : Char) (hc : isHexDigitChar c = true) :
    lowerHexChar c = c := by
  simp [isHexDigitChar] at hc
  rw [lowerHexChar, if_neg]
  omega

/-- An in-bounds getD is a member of the list. -/
theorem getD_mem_of_lt : ∀ (l : List Char) (i : Nat) (d : Char), i < l.length →
    l.getD i d ∈ l := by
  intro l
  induction l with
  | nil => intro i d h; simp at h
  | cons a t ih =>
    intro i d h
    cases i with
    | zero => simp
    | succ j =>
      rw [List.getD_cons_succ]
      refine List.mem_cons_of_mem a (ih j d ?_)
      simp at h
      omega

/-- Zero-filling to a width at least the length yields that width. -/
theorem zfill_length (k : Nat) (s : List Char) (h : s.length ≤ k) :
    (zfill k s).length = k := by
  simp [zfill]
  omega

/-- Zero-filling preserves being made of hex digits. -/
theorem zfill_mem_hex (s : List Char) (hs : ∀ c ∈ s, isHexDigitChar c = true)
    (c : Char) (hc : c ∈ zfill 40 s) : isHexDigitChar c = true := by
  simp [zfill, List.mem_replicate] at hc
  rcases hc with ⟨_, rfl⟩ | hc
  · decide
  · exact hs c hc

/-- A string of hex digits has no 0x prefix to strip. -/
theorem strip0x_of_hex (s : List Char) (hs : ∀ c ∈ s, isHexDigitChar c = true) :
    strip0x s = s := by
  by_cases hl : 2 ≤ s.length
  · rw [strip0x, if_neg]
    rintro ⟨-, -, h1⟩
    have hmem : s.getD 1 ' ' ∈ s := getD_mem_of_lt s 1 ' ' (by omega)
    have hhex := hs _ hmem
    rcases h1 with h1 | h1 <;> rw [h1] at hhex <;> exact absurd hhex (by decide)
  · rw [strip0x, if_neg]
    rintro ⟨h, -⟩
    omega

/-- to_checksum_address on a 40-character hex-digit string succeeds with the
prefixed checksum formatting of that string. -/
theorem tca_of_hex (s : List Char) (hlen : s.length = 40)
    (hhex : ∀ c ∈ s, isHexDigitChar c = true) :
    to_checksum_address s = some ('0' :: 'x' :: checksumFormat s) := by
  have hstrip : strip0x s = s := strip0x_of_hex s hhex
  have hmap : s.map lowerHexChar = s := by
    have h1 : s.map lowerHexChar = s.map id :=
      List.map_congr_left (fun c hc => lowerHexChar_of_hex c (hhex c hc))
    simpa using h1
  simp only [to_checksum_address, hstrip, hmap]
  rw [if_pos]
  exact ⟨hlen, List.all_eq_true.mpr hhex⟩

/-- to_checksum_address fails when the body (after prefix stripping) is not
40 characters long. -/
theorem tca_none_of_len (s : List Char) (h : (strip0x s).length ≠ 40) :
    to_checksum_address s = none := by
  simp only [to_checksum_address]
  rw [if_neg]
  rintro ⟨h1, -⟩
  exact h h1

/-- to_checksum_address fails when the body contains a character that is
not a hex digit even after lowercasing. -/
theorem tca_none_of_mem (s : List Char) (c : Char) (hc : c ∈ strip0x s)
    (hbad : isHexDigitChar (lowerHexChar c) = false) :
    to_checksum_address s = none := by
  simp only [to_checksum_address]
  rw [if_neg]
  rintro ⟨-, h2⟩
  have := List.all_eq_true.mp h2 (lowerHexChar c) (List.mem_map_of_mem lowerHexChar hc)
  rw [hbad] at this
  exact Bool.noConfusion this

/-- C1: for every non-empty string s, func_selector s equals the first 4
bytes of the Keccak-256 hash of s, and therefore has length exactly 4
bytes. -/
theorem claim_C1 (s : String) (_h : s ≠ "") :
    func_selector s = (keccak256 (strBytes s)).take 4 ∧ (func_selector s).length = 4 :=
  ⟨rfl, func_selector_length s⟩

/-- Witness for C1 at the signature the script uses. -/
theorem claim_C1_witness :
    ("name()" : String) ≠ "" ∧
      (func_selector "name()" = (keccak256 (strBytes "name()")).take 4 ∧
        (func_selector "name()").length = 4) :=
  ⟨by decide, claim_C1 "name()" (by decide)⟩

/-- C2: encode_input is the selector followed by the ABI encoding of the
arguments against the types; for empty type and argument lists it is
exactly the 4-byte selector with no trailing bytes. -/
theorem claim_C2 (name : String) (types : List String) (args : List ABIValue) :
    encode_input name types args =
      (abiEncode types args).map (fun e => func_selector name ++ e) ∧
    encode_input name [] [] = some (func_selector name) ∧
    (func_selector name).length = 4 := by
  refine ⟨rfl, ?_, func_selector_length name⟩
  simp [encode_input, abiEncode]

/-- C3: num_to_address 2050 yields a 42-character 0x-prefixed string that
is a valid checksummed address (a fixed point of to_checksum_address) and
lowercases to 0x followed by 802 zero-padded to 40 digits; this value is
the script's CONTRACT_ADDRESS. -/
theorem claim_C3 :
    num_to_address 2050 = some ("0x0000000000000000000000000000000000000802".data) ∧
    CONTRACT_ADDRESS = "0x0000000000000000000000000000000000000802" ∧
    CONTRACT_ADDRESS.length = 42 ∧
    CONTRACT_ADDRESS.data.take 2 = ['0', 'x'] ∧
    CONTRACT_ADDRESS.data.map lowerHexChar =
      "0x0000000000000000000000000000000000000802".data ∧
    to_checksum_address CONTRACT_ADDRESS.data = some CONTRACT_ADDRESS.data := by
  refine ⟨by decide, by decide, by decide, by decide, by decide, by decide⟩

/-- C4: on every non-negative integer below 16 ^ 40, num_to_address renders
the hex digits, left-pads with zeros to 40 characters and applies the
mixed-case checksum formatting; on every non-negative integer whose hex
rendering exceeds 40 digits it fails. -/
theorem claim_C4 (n : Nat) :
    num_to_address (n : Int) =
      if n < 16 ^ 40 then some ('0' :: 'x' :: checksumFormat (zfill 40 (hexCharsOf n)))
      else none := by
  have hdrop : (pyHex (n : Int)).drop 2 = hexCharsOf n := by
    rw [pyHex, if_neg (by omega : ¬ (n : Int) < 0)]
    simp
  have hdhex : ∀ c ∈ hexCharsOf n, isHexDigitChar c = true :=
    fun c hc => hexCharsOf_mem c n hc
  by_cases hlt : n < 16 ^ 40
  · have hdl : (hexCharsOf n).length ≤ 40 := by
      rw [hexCharsOf_length]
      exact hexDigitsLE_length_le (n + 1) 40 n hlt (by omega)
    rw [if_pos hlt]
    simp only [num_to_address]
    rw [hdrop]
    exact tca_of_hex _ (zfill_length 40 _ hdl) (zfill_mem_hex _ hdhex)
  · have hdl : 41 ≤ (hexCharsOf n).length := by
      rw [hexCharsOf_length]
      exact hexDigitsLE_length_ge (n + 1) n 40 (by omega) (by omega)
    have hz : zfill 40 (hexCharsOf n) = hexCharsOf n := by
      have h0 : 40 - (hexCharsOf n).length = 0 := by omega
      simp [zfill, h0]
    rw [if_neg hlt]
    simp only [num_to_address]
    rw [hdrop, hz]
    apply tca_none_of_len
    rw [strip0x_of_hex _ hdhex]
    omega

/-- C5: call_contract passes a descriptor of module EVM / function call to
the SCALE encoding, with value 0, gas limit and max fee both 10000000, no
priority fee, no explicit nonce, an empty access list, the keypair's
public key as 0x-prefixed hex source, the given target address, and the
given input bytes as hex. -/
theorem claim_C5 (enc : CallDescr → List Nat) (keypair : Keypair) (addr : String)
    (inp : List Nat) :
    Effect.scaleEncode (mkEvmCall keypair addr inp) ∈
      (call_contract enc keypair addr inp).2 ∧
    (mkEvmCall keypair addr inp).call_module = "EVM" ∧
    (mkEvmCall keypair addr inp).call_function = "call" ∧
    (mkEvmCall keypair addr inp).call_args.value = 0 ∧
    (mkEvmCall keypair addr inp).call_args.gas_limit = 10000000 ∧
    (mkEvmCall keypair addr inp).call_args.max_fee_per_gas = 10000000 ∧
    (mkEvmCall keypair addr inp).call_args.max_priority_fee_per_gas = none ∧
    (mkEvmCall keypair addr inp).call_args.nonce = none ∧
    (mkEvmCall keypair addr inp).call_args.access_list = [] ∧
    (mkEvmCall keypair addr inp).call_args.source =
      String.mk ('0' :: 'x' :: bytesToHexChars keypair.public_key) ∧
    (mkEvmCall keypair addr inp).call_args.target = addr ∧
    (mkEvmCall keypair addr inp).call_args.input = String.mk (bytesToHexChars inp) := by
  refine ⟨?_, rfl, rfl, rfl, rfl, rfl, rfl, rfl, rfl, rfl, rfl, rfl⟩
  simp [call_contract]

/-- C6: in the active code path the encoded call is never signed and never
submitted: for every SCALE encoder and keypair, the script's effect trace
contains no signed-extrinsic creation and no extrinsic submission. -/
theorem claim_C6 (enc : CallDescr → List Nat) (keypair : Keypair) :
    Effect.createSignedExtrinsic ∉ script_effects enc keypair ∧
    Effect.submitExtrinsic ∉ script_effects enc keypair := by
  constructor <;> simp [script_effects, init_interface_effects, call_contract]

/-- C7: init_interface registers exactly the six custom overrides: the
struct definitions Account, Transaction and Signature with their field
layouts, and the aliases Address, LookupSource and AccountId, each of
which resolves to H160; and the script's trace contains exactly one
registry modification, the initial one, so the overrides are read-only
thereafter. -/
theorem claim_C7 (enc : CallDescr → List Nat) (keypair : Keypair) :
    typeRegistryTypes.map Prod.fst =
      ["Address", "LookupSource", "Account", "AccountId", "Transaction", "Signature"] ∧
    lookupType "Account" =
      some (TypeDef.structDef [("nonce", "U256"), ("balance", "U256")]) ∧
    lookupType "Transaction" = some (TypeDef.structDef
      [("nonce", "U256"), ("gas_price", "U256"), ("gas_limit", "U256"),
       ("action", "EthTransactionAction"), ("value", "U256"), ("input", "Bytes"),
       ("signature", "EthTransactionSignature")]) ∧
    lookupType "Signature" =
      some (TypeDef.structDef [("v", "u64"), ("r", "H256"), ("s", "H256")]) ∧
    resolveAlias 4 "Address" = "H160" ∧
    resolveAlias 4 "LookupSource" = "H160" ∧
    resolveAlias 4 "AccountId" = "H160" ∧
    (script_effects enc keypair).filter Effect.isRegUpdate =
      [Effect.updateTypeRegistry typeRegistryTypes] := by
  exact ⟨by decide, by decide, by decide, by decide, by decide, by decide, by decide, rfl⟩

/-- C8: call_contract is deterministic: with the interface state fixed (one
SCALE encoder for the fixed metadata) and fixed keypair, address and input
bytes, two runs produce identical results; likewise two runs of the whole
script body produce byte-identical output. -/
theorem claim_C8 (enc : CallDescr → List Nat) (keypair : Keypair) (addr : String)
    (inp : List Nat) (out1 out2 : List Nat × List Effect) (s1 s2 : List Nat)
    (h1 : call_contract enc keypair addr inp = out1)
    (h2 : call_contract enc keypair addr inp = out2)
    (h3 : script_output enc keypair = s1)
    (h4 : script_output enc keypair = s2) :
    out1 = out2 ∧ s1 = s2 :=
  ⟨h1.symm.trans h2, h3.symm.trans h4⟩

/-- Witness for C8 at a concrete encoder, keypair, address and input. -/
theorem claim_C8_witness :
    call_contract sampleEnc sampleKeypair "t" [] =
      call_contract sampleEnc sampleKeypair "t" [] ∧
    script_output sampleEnc sampleKeypair = script_output sampleEnc sampleKeypair :=
  claim_C8 sampleEnc sampleKeypair "t" [] _ _ _ _ rfl rfl rfl rfl

/-- C9: the keypair is never mutated: the state-passing form of
call_contract returns it unchanged, and the call reads nothing of the
keypair beyond its public key (two keypairs with the same public key give
identical runs). -/
theorem claim_C9 (enc : CallDescr → List Nat) (k k' : Keypair) (addr : String)
    (inp : List Nat) (h : k.public_key = k'.public_key) :
    (call_contract_st enc k addr inp).1 = k ∧
    call_contract enc k addr inp = call_contract enc k' addr inp := by
  refine ⟨rfl, ?_⟩
  simp [call_contract, mkEvmCall, h]

/-- Witness for C9 at two concrete keypairs sharing a public key. -/
theorem claim_C9_witness :
    sampleKeypair.public_key = sampleKeypair2.public_key ∧
    ((call_contract_st sampleEnc sampleKeypair "t" []).1 = sampleKeypair ∧
      call_contract sampleEnc sampleKeypair "t" [] =
        call_contract sampleEnc sampleKeypair2 "t" []) :=
  ⟨by decide, claim_C9 sampleEnc sampleKeypair sampleKeypair2 "t" [] (by decide)⟩

/-- C10: for every negative integer, num_to_address raises instead of
returning an address: the hex rendering with its first two characters
stripped starts with the letter x, which the checksum conversion rejects. -/
theorem claim_C10 (n : Int) (h : n < 0) :
    ((pyHex n).drop 2).head? = some 'x' ∧ num_to_address n = none := by
  have hpy : pyHex n = '-' :: '0' :: 'x' :: hexCharsOf (-n).toNat := by
    rw [pyHex, if_pos h]
  refine ⟨by rw [hpy]; rfl, ?_⟩
  have hdhex : ∀ c ∈ hexCharsOf (-n).toNat, isHexDigitChar c = true :=
    fun c hc => hexCharsOf_mem c _ hc
  simp only [num_to_address]
  rw [hpy]
  have hdrop : ('-' :: '0' :: 'x' :: hexCharsOf (-n).toNat).drop 2 =
      'x' :: hexCharsOf (-n).toNat := rfl
  rw [hdrop]
  set d := hexCharsOf (-n).toNat with hd
  by_cases h1 : 39 ≤ d.length
  · have hz : zfill 40 ('x' :: d) = 'x' :: d := by
      have h0 : 39 - d.length = 0 := by omega
      simp [zfill, h0]
    rw [hz]
    have hstrip : strip0x ('x' :: d) = 'x' :: d := by
      rw [strip0x, if_neg]
      rintro ⟨-, h0, -⟩
      rw [List.getD_cons_zero] at h0
      exact absurd h0 (by decide)
    by_cases h2 : d.length = 39
    · exact tca_none_of_mem _ 'x' (by rw [hstrip]; exact List.mem_cons_self 'x' d)
        (by decide)
    · apply tca_none_of_len
      rw [hstrip]
      simp
      omega
  · by_cases h2 : d.length = 38
    · have hz : zfill 40 ('x' :: d) = '0' :: 'x' :: d := by
        have h0 : 39 - d.length = 1 := by omega
        simp [zfill, h0]
      rw [hz]
      have hstrip : strip0x ('0' :: 'x' :: d) = d := by
        have hcond : 2 ≤ ('0' :: 'x' :: d).length ∧ ('0' :: 'x' :: d).getD 0 ' ' = '0' ∧
            (('0' :: 'x' :: d).getD 1 ' ' = 'x' ∨ ('0' :: 'x' :: d).getD 1 ' ' = 'X') :=
          ⟨by simp, rfl, Or.inl rfl⟩
        rw [strip0x, if_pos hcond]
        rfl
      apply tca_none_of_len
      rw [hstrip]
      omega
    · obtain ⟨q, hq⟩ : ∃ q, 39 - d.length = q + 2 :=
        ⟨39 - d.length - 2, by omega⟩
      have hz : zfill 40 ('x' :: d) =
          '0' :: '0' :: (List.replicate q '0' ++ 'x' :: d) := by
        simp [zfill, hq, List.replicate_succ]
      rw [hz]
      have hstrip : strip0x ('0' :: '0' :: (List.replicate q '0' ++ 'x' :: d)) =
          '0' :: '0' :: (List.replicate q '0' ++ 'x' :: d) := by
        rw [strip0x, if_neg]
        rintro ⟨-, -, hx | hx⟩ <;>
          · rw [List.getD_cons_succ, List.getD_cons_zero] at hx
            exact absurd hx (by decide)
      apply tca_none_of_mem _ 'x'
      · rw [hstrip]
        simp
      · decide

/-- Witness for C10 at the negative integer -1. -/
theorem claim_C10_witness :
    ((-1 : Int) < 0) ∧
      (((pyHex (-1)).drop 2).head? = some 'x' ∧ num_to_address (-1) = none) :=
  ⟨by decide, claim_C10 (-1) (by decide)⟩
